import Mathlib

/-!
# ChatVault.ai — verification of the retrieval core

Shallow embedding of the components of `apps/api/src` that the specification's
claims are about:

* the FAISS-backed local vector index and its Qdrant-merging wrapper
  (`services/index_faiss.py`, `services/index.py`);
* the ingestion task executor (`utils/tasks.py`);
* the semantic chunker with its overlap stitching and fixed-size fallback
  (`services/chunking.py`);
* the citation extractor (`services/rag.py`).

External collaborators (the raw FAISS nearest-neighbour call, the Qdrant
client, disk writes, the awaited pipeline coroutine) are modelled as explicit
inputs: an `Except String _` value stands for "returned normally / raised an
exception".  Python floats (similarity scores) are modelled as `Rat`; the
claims about them are purely order-theoretic.  The external tiktoken
tokenizer is modelled as an abstract `encode`/`decode` pair, with a
one-token-per-character instantiation used to evaluate concrete runs.
-/

namespace ChatVault

/-! ## Vector index (services/index_faiss.py, services/index.py) -/

/-- The `location` dict attached to every chunk by
`SemanticChunker._create_chunk_data` (chunking.py lines 163-167) and carried
through the index verbatim.  The `section` key is called `sec` here because
`section` is a Lean keyword. -/
structure Location where
  page : Option Nat
  type : String
  sec : String
deriving DecidableEq, Inhabited

/-- One metadata record stored next to the vectors by `FAISSIndex.add_chunks`
(index_faiss.py lines 67-74).  `document_id` is `chunk.get('document_id')`,
hence optional. -/
structure MetaEntry where
  chunk_id : String
  text : String
  document_id : Option Int
  location : Location
  headings : List String
deriving DecidableEq, Inhabited

/-- A search hit as assembled by `FAISSIndex.search` (index_faiss.py lines
118-125) and by the Qdrant branch of `VectorIndex.search` (index.py lines
136-143). -/
structure SearchHit where
  chunk_id : String
  score : Rat
  text : String
  document_id : Option Int
  location : Location
  headings : List String
deriving DecidableEq, Inhabited

/-- The candidate-processing loop of `FAISSIndex.search` (index_faiss.py lines
99-128).  `raw` is the `(score, index)` sequence returned by the underlying
`self.index.search` call, already ordered by FAISS; `budget` is
`top_k - len(results)` for the running `results` list, so the
`if len(results) >= top_k: break` after an append becomes `budget ≤ 1`;
`seen` is the `seen_docs` set.  The document filter re-applies Python's
`metadata['document_id'] not in filter_document_ids` (an absent/None id is
never in a list of ints), and the filter is only active when the list is
non-empty (Python truthiness of `filter_document_ids`). -/
def faissLoop (metadata : List MetaEntry) : List (Rat × Nat) → Nat →
    List (Option Int) → List Int → List SearchHit
  | [], _, _, _ => []
  | (score, idx) :: rest, budget, seen, filt =>
    if h : idx < metadata.length then
      let m := metadata.get ⟨idx, h⟩
      if filt ≠ [] ∧ m.document_id ∉ filt.map Option.some then
        faissLoop metadata rest budget seen filt
      else if m.document_id ∈ seen then
        faissLoop metadata rest budget seen filt
      else
        let hit : SearchHit :=
          ⟨m.chunk_id, score, m.text, m.document_id, m.location, m.headings⟩
        if budget ≤ 1 then [hit]
        else hit :: faissLoop metadata rest (budget - 1) (m.document_id :: seen) filt
    else
      faissLoop metadata rest budget seen filt

/-- `FAISSIndex.search` (index_faiss.py lines 85-134).  `ntotal` is
`self.index.ntotal`; `rawResult` models everything fallible before the result
loop (query normalization plus the raw FAISS call), with `Except.error`
standing for a raised exception, which the `except` clause at lines 132-134
converts into `[]`.  In a consistent index `ntotal = metadata.length` and the
raw list has length `min (2 * topK) ntotal`, but the definition does not
assume this. -/
def faissSearch (ntotal : Nat) (rawResult : Except String (List (Rat × Nat)))
    (metadata : List MetaEntry) (topK : Nat) (filt : List Int) : List SearchHit :=
  if ntotal = 0 then []
  else
    match rawResult with
    | .error _ => []
    | .ok raw => faissLoop metadata raw topK [] filt

/-- The merge step of `VectorIndex.search` (index.py lines 100-152).
`faissResults` is the local result list; if it already reaches `top_k` it is
returned as-is (lines 108-109).  Otherwise, when Qdrant is configured, the
remote hits are appended one by one unless a hit with the same `chunk_id` is
already present (lines 135-147) — note the duplicate check is on `chunk_id`
only — and the combined list is truncated to `top_k` (line 152).  A raised
Qdrant error is caught at lines 149-150 and leaves the local list unchanged. -/
def vectorSearch (faissResults : List SearchHit) (topK : Nat) (useQdrant : Bool)
    (qdrantOutcome : Except String (List SearchHit)) : List SearchHit :=
  if topK ≤ faissResults.length then faissResults
  else
    let merged :=
      if useQdrant then
        match qdrantOutcome with
        | .error _ => faissResults
        | .ok qhits =>
          qhits.foldl
            (fun acc q =>
              if acc.any (fun r => r.chunk_id = q.chunk_id) then acc else acc ++ [q])
            faissResults
      else faissResults
    merged.take topK

/-- End-to-end `VectorIndex.search`: local FAISS search followed by the
optional Qdrant merge. -/
def search (ntotal : Nat) (rawResult : Except String (List (Rat × Nat)))
    (metadata : List MetaEntry) (topK : Nat) (filt : List Int) (useQdrant : Bool)
    (qdrantOutcome : Except String (List SearchHit)) : List SearchHit :=
  vectorSearch (faissSearch ntotal rawResult metadata topK filt) topK useQdrant qdrantOutcome

/-- The chunk dict consumed by `FAISSIndex.add_chunks`. -/
structure ChunkIn where
  chunk_id : String
  text : String
  document_id : Option Int
  location : Location
  headings : List String
  embedding : List Rat
deriving DecidableEq, Inhabited

/-- The metadata record appended for one chunk (index_faiss.py lines 67-74). -/
def toMetaEntry (c : ChunkIn) : MetaEntry :=
  ⟨c.chunk_id, c.text, c.document_id, c.location, c.headings⟩

/-- `FAISSIndex._save_index` (index_faiss.py lines 160-167).  `writeOutcome`
models the two disk writes (`faiss.write_index` and `pickle.dump`); an error
from either is caught by the `except` clause at lines 166-167 and only
logged, so the function itself always returns normally. -/
def saveIndex (writeOutcome : Except String Unit) : Except String Unit :=
  match writeOutcome with
  | .ok _ => .ok ()
  | .error _ => .ok ()

/-- `FAISSIndex.add_chunks` (index_faiss.py lines 51-83), tracking the stored
metadata list.  The `try`/`except ... raise` wrapper (lines 53, 81-83)
re-raises any exception that reaches it, modelled by the `.error` branch of
the match on `saveIndex`'s outcome. -/
def addChunks (chunks : List ChunkIn) (metadata : List MetaEntry)
    (writeOutcome : Except String Unit) : Except String (List MetaEntry) :=
  if chunks = [] then .ok metadata
  else
    let newMeta := metadata ++ chunks.map toMetaEntry
    match saveIndex writeOutcome with
    | .ok _ => .ok newMeta
    | .error e => .error e

/-! ## Task executor (utils/tasks.py) -/

/-- `TaskStatus` (tasks.py lines 14-19). -/
inductive TaskStatus
  | PENDING | RUNNING | COMPLETED | FAILED | CANCELLED
deriving DecidableEq, Inhabited

/-- The persisted task record, restricted to the fields the claims are about. -/
structure TaskRec where
  status : TaskStatus
  result : Option String
  error : Option String
deriving DecidableEq, Inhabited

/-- The database writes performed on a task record.  `start`, `finishOk` and
`finishErr` are the three commit blocks of `TaskManager._execute_task`
(tasks.py lines 64-68, 74-79, 85-90); `cancel` is the write of
`TaskManager.cancel_task` (lines 111-117). -/
inductive TaskEv
  | start
  | finishOk (r : String)
  | finishErr (e : String)
  | cancel
deriving DecidableEq

/-- One event applied to a task record, exactly as the source writes it:
`start` sets RUNNING unconditionally, `finishOk`/`finishErr` set
COMPLETED/FAILED unconditionally (the code never re-checks the current status
before these writes), and `cancel` sets CANCELLED only from PENDING or
RUNNING (tasks.py line 112). -/
def taskStep (t : TaskRec) : TaskEv → TaskRec
  | .start => { t with status := .RUNNING }
  | .finishOk r => { t with status := .COMPLETED, result := some r }
  | .finishErr e => { t with status := .FAILED, error := some e }
  | .cancel =>
    if t.status = .PENDING ∨ t.status = .RUNNING then
      { t with status := .CANCELLED }
    else t

/-- The terminal statuses (spec §3: COMPLETED/FAILED/CANCELLED). -/
def isTerminal : TaskStatus → Bool
  | .COMPLETED => true
  | .FAILED => true
  | .CANCELLED => true
  | _ => false

/-- A freshly submitted task record (tasks.py lines 39-45). -/
def initTask : TaskRec := ⟨.PENDING, none, none⟩

/-- `TaskManager._execute_task` (tasks.py lines 54-90) run without
interleaving: set RUNNING, await the pipeline, then record the outcome.
`outcome` models `await task_func()`: `.ok r` for a normal return and
`.error e` for a raised exception with message `e`, which the
`except Exception` clause at lines 81-90 catches. -/
def executeTask (outcome : Except String String) (t : TaskRec) : TaskRec :=
  match outcome with
  | .ok r => taskStep (taskStep t .start) (.finishOk r)
  | .error e => taskStep (taskStep t .start) (.finishErr e)

/-! ## Semantic chunker (services/chunking.py)

The chunker manipulates Python strings; string primitives (`split`, `strip`,
`join`) are modelled directly on the character lists so that their behaviour
matches CPython exactly. -/

/-- Abstract model of the external tiktoken `cl100k_base` tokenizer
(chunking.py line 12): `encode` turns text into a token sequence and `decode`
inverts it.  The chunker only ever uses these two operations. -/
structure Tokenizer where
  encode : String → List Nat
  decode : List Nat → String

/-- Reference instantiation used to evaluate concrete runs: one token per
character. -/
def charTok : Tokenizer where
  encode s := s.data.map Char.toNat
  decode l := ⟨l.map Char.ofNat⟩

/-- The characters Python's default `str.strip()` and the regex class `\s`
treat as whitespace (restricted to ASCII, which covers every string the
development evaluates). -/
def isPyWS (c : Char) : Bool :=
  c = ' ' || c = '\t' || c = '\n' || c = '\r' || c = '\x0b' || c = '\x0c'

/-- Python `str.strip()` with no argument. -/
def pyStrip (s : String) : String :=
  ⟨((s.data.dropWhile isPyWS).reverse.dropWhile isPyWS).reverse⟩

/-- Python `str.split('\n')` on the character list: split at every newline,
keeping empty parts. -/
def splitNL : List Char → List (List Char)
  | [] => [[]]
  | c :: rest =>
    if c = '\n' then [] :: splitNL rest
    else
      match splitNL rest with
      | [] => [[c]]
      | h :: t => (c :: h) :: t

/-- Python `str.split('\n\n')` on the character list: split at every
(leftmost, non-overlapping) occurrence of two consecutive newlines. -/
def splitNLNL : List Char → List (List Char)
  | [] => [[]]
  | '\n' :: '\n' :: rest => [] :: splitNLNL rest
  | c :: rest =>
    match splitNLNL rest with
    | [] => [[c]]
    | h :: t => (c :: h) :: t

/-- `text.split('\n')` as a `String` operation. -/
def pySplitNL (s : String) : List String := (splitNL s.data).map (⟨·⟩)

/-- `text.split('\n\n')` as a `String` operation (chunking.py line 134). -/
def pySplitNLNL (s : String) : List String := (splitNLNL s.data).map (⟨·⟩)

/-! ### Heading detection (chunking.py lines 88-127)

The four `re.match` patterns of `_split_by_headings`, evaluated — as in the
source — against the stripped line, so the models below assume no leading or
trailing whitespace. -/

/-- `r'^#{1,6}\s+(.+)$'`: one to six hash marks, at least one whitespace
character, then at least one further character. -/
def matchHash (l : List Char) : Bool :=
  let hashes := l.takeWhile (· = '#')
  let rest := l.dropWhile (· = '#')
  decide (1 ≤ hashes.length) && decide (hashes.length ≤ 6) &&
    !(rest.takeWhile isPyWS).isEmpty && !(rest.dropWhile isPyWS).isEmpty

/-- `r'^[A-Z][A-Z\s]{2,}$'`: an ALL-CAPS line of 3+ characters. -/
def matchAllCaps : List Char → Bool
  | [] => false
  | c :: rest =>
    c.isUpper && decide (2 ≤ rest.length) && rest.all (fun d => d.isUpper || isPyWS d)

/-- `r'^\d+\.\s+[A-Z][^.]*$'`: a numbered heading. -/
def matchNumbered (l : List Char) : Bool :=
  let ds := l.takeWhile Char.isDigit
  let r1 := l.dropWhile Char.isDigit
  !ds.isEmpty &&
    match r1 with
    | '.' :: r2 =>
      let ws := r2.takeWhile isPyWS
      let r3 := r2.dropWhile isPyWS
      !ws.isEmpty &&
        match r3 with
        | u :: r4 => u.isUpper && r4.all (· ≠ '.')
        | [] => false
    | _ => false

/-- One `[A-Z][a-z]+` word. -/
def isTitleWord : List Char → Bool
  | [] => false
  | c :: rest => c.isUpper && !rest.isEmpty && rest.all Char.isLower

/-- The maximal whitespace-separated words of a line. -/
def wordsWS : List Char → List Char → List (List Char)
  | [], cur => if cur.isEmpty then [] else [cur.reverse]
  | c :: rest, cur =>
    if isPyWS c then
      if cur.isEmpty then wordsWS rest [] else cur.reverse :: wordsWS rest []
    else wordsWS rest (c :: cur)

/-- `r'^[A-Z][a-z]+(?:\s+[A-Z][a-z]+)*\s*$'`: a Title Case line — it starts
with an upper-case letter and every whitespace-separated word is
`[A-Z][a-z]+`. -/
def matchTitleCase : List Char → Bool
  | [] => false
  | c :: rest => c.isUpper && (wordsWS (c :: rest) []).all isTitleWord

/-- `_split_by_headings`' per-line test (chunking.py lines 106-107): does any
of the four patterns match the stripped line? -/
def isHeadingLine (line : String) : Bool :=
  let l := (pyStrip line).data
  matchHash l || matchAllCaps l || matchNumbered l || matchTitleCase l

/-- One section produced by `_split_by_headings`: accumulated text plus the
heading context (the single most recent heading line, stripped). -/
structure DocSection where
  text : String
  headings : List String
deriving DecidableEq, Inhabited

/-- The line loop of `_split_by_headings` (chunking.py lines 100-126):
a heading line flushes the current section (if its stripped text is
non-empty) and starts a new one carrying that heading; any other line is
appended, always with the `'\n'` the loop adds back. -/
def splitByHeadingsGo : List String → DocSection → List DocSection
  | [], cur => if pyStrip cur.text ≠ "" then [cur] else []
  | line :: rest, cur =>
    if isHeadingLine line then
      (if pyStrip cur.text ≠ "" then [cur] else []) ++
        splitByHeadingsGo rest ⟨line ++ "\n", [pyStrip line]⟩
    else
      splitByHeadingsGo rest ⟨cur.text ++ line ++ "\n", cur.headings⟩

/-- `SemanticChunker._split_by_headings` (chunking.py lines 88-127). -/
def splitByHeadings (text : String) : List DocSection :=
  splitByHeadingsGo (pySplitNL text) ⟨"", []⟩

/-- The paragraph-accumulation loop of `_split_large_section` (chunking.py
lines 135-153): paragraphs with empty strip are skipped; the running buffer
is flushed (stripped) when appending the next paragraph would exceed the
budget and the buffer is non-empty; a lone over-budget paragraph stays in the
buffer and is emitted whole. -/
def splitLargeGo (tok : Tokenizer) (cs : Nat) : List String → String → List String
  | [], cur => if pyStrip cur ≠ "" then [pyStrip cur] else []
  | p :: ps, cur =>
    if pyStrip p = "" then splitLargeGo tok cs ps cur
    else
      let test := if cur ≠ "" then cur ++ "\n\n" ++ p else p
      if cs < (tok.encode test).length ∧ cur ≠ "" then
        pyStrip cur :: splitLargeGo tok cs ps p
      else
        splitLargeGo tok cs ps test

/-- `SemanticChunker._split_large_section` (chunking.py lines 129-155). -/
def splitLargeSection (tok : Tokenizer) (cs : Nat) (text : String) : List String :=
  splitLargeGo tok cs (pySplitNLNL text) ""

/-- A chunk as built by `_create_chunk_data` (chunking.py lines 157-175):
the embedding is attached later by an external collaborator. -/
structure ChunkData where
  chunk_id : String
  text : String
  location : Location
  headings : List String
  token_count : Nat
deriving DecidableEq, Inhabited

/-- Python `page_num or 1` (chunking.py line 161): `None` and `0` are both
falsy. -/
def pageOr1 : Option Nat → Nat
  | none => 1
  | some 0 => 1
  | some n => n

/-- `SemanticChunker._create_chunk_data` (chunking.py lines 157-175). -/
def createChunkData (tok : Tokenizer) (text docId : String) (pageNum : Option Nat)
    (pageType : String) (headings : List String) (sectionId : String) : ChunkData :=
  { chunk_id := "chunk_" ++ docId ++ "_" ++ toString (pageOr1 pageNum) ++ "_" ++ sectionId
    text := text
    location := ⟨pageNum, pageType, sectionId⟩
    headings := headings
    token_count := (tok.encode text).length }

/-- The per-section body of `_chunk_by_semantic_boundaries` (chunking.py
lines 65-83): a section with empty stripped text is dropped; an over-budget
section is split into sub-chunks with ids `i_j`; otherwise the section is
emitted whole with id `i`. -/
def sectionChunks (tok : Tokenizer) (cs : Nat) (docId : String) (pageNum : Option Nat)
    (pageType : String) (i : Nat) (s : DocSection) : List ChunkData :=
  if pyStrip s.text = "" then []
  else if cs < (tok.encode s.text).length then
    (splitLargeSection tok cs s.text).enum.map fun ⟨j, sub⟩ =>
      createChunkData tok sub docId pageNum pageType s.headings
        (toString i ++ "_" ++ toString j)
  else
    [createChunkData tok s.text docId pageNum pageType s.headings (toString i)]

/-- `_chunk_by_semantic_boundaries` up to — but not including — the final
`_apply_overlap` call (chunking.py lines 60-84): the units as emitted before
overlap stitching. -/
def preOverlapChunks (tok : Tokenizer) (cs : Nat) (text docId : String)
    (pageNum : Option Nat) (pageType : String) : List ChunkData :=
  ((splitByHeadings text).enum.map fun ⟨i, s⟩ =>
    sectionChunks tok cs docId pageNum pageType i s).flatten

/-! ### Overlap stitching (chunking.py lines 177-215) -/

/-- Python `tokens[-n:]` (chunking.py line 206).  Note `tokens[-0:]` is the
whole list. -/
def pyLastSlice (l : List Nat) (n : Nat) : List Nat :=
  if n = 0 then l else l.drop (l.length - n)

/-- A sentence-ending character of the regex class `[.!?]`. -/
def isPunctSE (c : Char) : Bool := c = '.' || c = '!' || c = '?'

/-- `re.split(r'[.!?]+', s)` on the character list: each maximal run of
sentence-ending punctuation is a separator; empty parts are kept.  `cur` is
the (reversed) part being accumulated and `inRun` records whether the
previous character belonged to a separator run (so a longer run does not
emit further empty parts). -/
def splitPunctGo : List Char → List Char → Bool → List (List Char)
  | [], cur, _ => [cur.reverse]
  | c :: rest, cur, inRun =>
    if isPunctSE c then
      if inRun then splitPunctGo rest [] true
      else cur.reverse :: splitPunctGo rest [] true
    else splitPunctGo rest (c :: cur) false

/-- `re.split(r'[.!?]+', s)` as a `String` operation (chunking.py line 210). -/
def reSplitPunct (s : String) : List String := (splitPunctGo s.data [] false).map (⟨·⟩)

/-- Python `'. '.join(parts)` (chunking.py line 213). -/
def joinDotSp : List String → String
  | [] => ""
  | [s] => s
  | s :: rest => s ++ ". " ++ joinDotSp rest

/-- `SemanticChunker._get_overlap_text` (chunking.py lines 198-215): the whole
text when it fits the overlap budget, otherwise the decoded trailing
`overlapTokens`-token slice, rewritten at sentence boundaries (separator runs
replaced by `'. '`, last fragment dropped, final `'.'` appended) when the
slice splits into more than one sentence. -/
def getOverlapText (tok : Tokenizer) (text : String) (overlapTokens : Nat) : String :=
  let tokens := tok.encode text
  if tokens.length ≤ overlapTokens then text
  else
    let overlapText := tok.decode (pyLastSlice tokens overlapTokens)
    let sentences := reSplitPunct overlapText
    if 1 < sentences.length then joinDotSp sentences.dropLast ++ "."
    else overlapText

/-- The mutation one iteration of `_apply_overlap` performs on a chunk
(chunking.py lines 186-192): prepend the overlap text of the previous chunk
(joined by a blank line) when it is non-empty, and recompute `token_count`.
`prev` is `chunks[i-1]` — the list element as already mutated by the
previous iteration. -/
def stitchChunk (tok : Tokenizer) (co : Nat) (prev c : ChunkData) : ChunkData :=
  let ot := getOverlapText tok prev.text co
  if ot = "" then c
  else
    { c with
      text := ot ++ "\n\n" ++ c.text
      token_count := (tok.encode (ot ++ "\n\n" ++ c.text)).length }

/-- The loop of `_apply_overlap` from the second chunk on; `prev` is the
already-stitched predecessor (the source mutates the list in place, so
`chunks[i-1]` is the mutated element). -/
def applyOverlapGo (tok : Tokenizer) (co : Nat) (prev : ChunkData) :
    List ChunkData → List ChunkData
  | [] => []
  | c :: rest =>
    let c2 := stitchChunk tok co prev c
    c2 :: applyOverlapGo tok co c2 rest

/-- `SemanticChunker._apply_overlap` (chunking.py lines 177-196). -/
def applyOverlap (tok : Tokenizer) (co : Nat) : List ChunkData → List ChunkData
  | [] => []
  | [c] => [c]
  | c :: rest => c :: applyOverlapGo tok co c rest

/-- `_chunk_by_semantic_boundaries` (chunking.py lines 56-86) in full. -/
def chunkBySemanticBoundaries (tok : Tokenizer) (cs co : Nat) (text docId : String)
    (pageNum : Option Nat) (pageType : String) : List ChunkData :=
  applyOverlap tok co (preOverlapChunks tok cs text docId pageNum pageType)

/-- `SemanticChunker._simple_chunk` (chunking.py lines 217-236): a sliding
window over the raw token sequence with stride `cs - co`.  Python's
`range(0, n, step)` enumerates `⌈n / step⌉` start offsets (for `step > 0`;
the configuration guarantees `co < cs`, a zero or negative stride would make
the Python `range` raise or stall, modelled as the empty range here). -/
def simpleChunk (tok : Tokenizer) (cs co : Nat) (text docId : String) : List ChunkData :=
  let tokens := tok.encode text
  let step := cs - co
  (List.range ((tokens.length + step - 1) / step)).map fun k =>
    let i := k * step
    let ct := (tokens.drop i).take cs
    { chunk_id := "simple_chunk_" ++ docId ++ "_" ++ toString (i / cs)
      text := tok.decode ct
      location := ⟨some 1, "text", toString (i / cs)⟩
      headings := []
      token_count := ct.length }

/-- `SemanticChunker.chunk_text` (chunking.py lines 16-30) for input without
page segmentation (`metadata['page_content']` absent), so the `try` block
runs `_chunk_by_semantic_boundaries(text, metadata)`.  `failure` models an
exception raised anywhere inside the `try` block: the `except` clause at
lines 27-30 catches it and falls back to `_simple_chunk`. -/
def chunkText (tok : Tokenizer) (cs co : Nat) (failure : Option String)
    (text docId : String) : List ChunkData :=
  match failure with
  | some _ => simpleChunk tok cs co text docId
  | none => chunkBySemanticBoundaries tok cs co text docId none "text"

/-! ## Citation extractor (services/rag.py) -/

/-- One retrieved unit as passed to `extract_citations`: the dict fields the
function reads (`chunk_id`, `document_id` via `.get`, `location`, `headings`
via `.get(…, [])`, `text`). -/
structure RetrievedChunk where
  chunk_id : String
  document_id : Option Int
  location : Location
  headings : List String
  text : String
deriving DecidableEq, Inhabited

/-- A citation record (rag.py lines 154-160). -/
structure Citation where
  chunk_id : String
  document_id : Option Int
  location : Location
  headings : List String
  text : String
deriving DecidableEq, Inhabited

/-- The snippet truncation of rag.py line 159:
`chunk['text'][:200] + "..." if len(chunk['text']) > 200 else chunk['text']`. -/
def truncSnippet (t : String) : String :=
  if 200 < t.length then ⟨t.data.take 200⟩ ++ "..." else t

/-- The citation built for one resolved marker (rag.py lines 153-160). -/
def toCitation (c : RetrievedChunk) : Citation :=
  ⟨c.chunk_id, c.document_id, c.location, c.headings, truncSnippet c.text⟩

/-- The numeric value of a digit run. -/
def digitsToNat (ds : List Char) : Nat :=
  ds.foldl (fun a c => 10 * a + (c.toNat - '0'.toNat)) 0

/-- The scan of `re.findall(r'\[(\d+)\]', s)` as a character-level state
machine.  `none` means "not inside a candidate match"; `some ds` means "after
a `'['` with the (reversed) digit run `ds` collected".  A candidate closed by
`']'` with at least one digit emits the captured number and the scan resumes
after the `']'`; on any failure the regex engine retries at each later
position, which collapses to: a `'['` opens a fresh candidate, any other
character is skipped (a skipped digit run can never start a match). -/
def findMarkersGo : List Char → Option (List Char) → List Nat
  | [], _ => []
  | c :: rest, none =>
    findMarkersGo rest (if c = '[' then some [] else none)
  | c :: rest, some ds =>
    if c.isDigit then findMarkersGo rest (some (c :: ds))
    else if c = ']' then
      if ds.isEmpty then findMarkersGo rest none
      else digitsToNat ds.reverse :: findMarkersGo rest none
    else findMarkersGo rest (if c = '[' then some [] else none)

/-- `re.findall(r'\[(\d+)\]', s)` (rag.py lines 146-147), each captured digit
group converted to the number it denotes, in match order. -/
def findMarkers (l : List Char) : List Nat := findMarkersGo l none

/-- The marker-resolution loop of `extract_citations` (rag.py lines 149-163):
a marker `n` resolves 1-indexed to `chunks[n-1]`; out-of-range markers are
skipped.  (The Python guard is `0 <= n-1 < len(chunks)`; over `Nat` this is
`1 ≤ n ∧ n-1 < len`.) -/
def citeLoop (chunks : List RetrievedChunk) : List Nat → List Citation
  | [] => []
  | n :: ms =>
    if h : 1 ≤ n ∧ n - 1 < chunks.length then
      toCitation (chunks.get ⟨n - 1, h.2⟩) :: citeLoop chunks ms
    else citeLoop chunks ms

/-- `RAGService.extract_citations` (rag.py lines 140-165). -/
def extractCitations (resp : String) (chunks : List RetrievedChunk) : List Citation :=
  citeLoop chunks (findMarkers resp.data)

/-! ## Concrete records used in counterexamples and witnesses -/

/-- A location shared by the concrete records below. -/
def locA : Location := ⟨some 1, "text", "0"⟩

/-- A stored chunk of document 1. -/
def metaA : MetaEntry := ⟨"u1", "ta", some 1, locA, []⟩

/-- A second, distinct chunk of the same document 1. -/
def metaB : MetaEntry := ⟨"u2", "tb", some 1, locA, []⟩

/-- A Qdrant hit returning document 1's second chunk. -/
def qdrantHitB : SearchHit := ⟨"u2", 1, "tb", some 1, locA, []⟩

/-- A Qdrant hit on a different document whose score beats the local tail. -/
def qdrantHitC : SearchHit := ⟨"u3", 2, "tc", some 2, locA, []⟩

/-- A chunk with an embedding, as passed to `add_chunks`. -/
def chunkInA : ChunkIn := ⟨"u1", "ta", some 1, locA, [], [1]⟩

/-- A pre-overlap chunk used to exercise `applyOverlap`. -/
def chunkA : ChunkData := ⟨"a", "Hello there", locA, [], 11⟩

/-- A second pre-overlap chunk used to exercise `applyOverlap`. -/
def chunkB : ChunkData := ⟨"b", "world", locA, [], 5⟩

/-! ## Theorems -/

/-- **C10**: the local index search is total: a search against a collection
holding zero vectors (`ntotal = 0`, index_faiss.py lines 89-90) returns `[]`,
and a search whose internal processing raises any exception returns `[]`
(the catch-all at lines 132-134) — in both cases nothing propagates to the
caller. -/
theorem faissSearch_total (raw : Except String (List (Rat × Nat)))
    (metadata : List MetaEntry) (topK : Nat) (filt : List Int) (n : Nat) (e : String) :
    faissSearch 0 raw metadata topK filt = []
      ∧ faissSearch n (Except.error e) metadata topK filt = [] := by
  refine ⟨rfl, ?_⟩
  unfold faissSearch
  split <;> rfl

/-- **C8**: a pipeline function that raises with message `e` is caught at the
executor boundary (`except Exception` at tasks.py lines 81-90): the task
transitions to FAILED and the message is recorded verbatim in `error`.  The
executor itself returns normally — `executeTask` is a total function, the
model of the fact that the exception never escapes `_execute_task`. -/
theorem executeTask_failure_isolation (t : TaskRec) (e : String) :
    (executeTask (Except.error e) t).status = TaskStatus.FAILED
      ∧ (executeTask (Except.error e) t).error = some e :=
  ⟨rfl, rfl⟩

/-- **C2** (violation exhibited): a task that is started, then cancelled while
running (as `cancel_task` does while `_execute_task` awaits the pipeline —
the await is a suspension point, and `submit_task` never stores the asyncio
task in `self._tasks`, so the `.cancel()` call in `cancel_task` never fires),
reaches the terminal status CANCELLED; when the pipeline then returns, the
unconditional completion write (tasks.py lines 74-79) moves it to COMPLETED —
a second terminal transition out of a terminal state, contradicting the
claim. -/
theorem cancel_then_complete_violates_terminality :
    (taskStep (taskStep initTask .start) .cancel).status = TaskStatus.CANCELLED
      ∧ isTerminal (taskStep (taskStep initTask .start) .cancel).status = true
      ∧ (taskStep (taskStep (taskStep initTask .start) .cancel)
          (.finishOk "done")).status = TaskStatus.COMPLETED
      ∧ isTerminal TaskStatus.CANCELLED = true := by
  decide

/-- **C3** (counterexample): with a non-empty chunk list and a failing disk
write, `add_chunks` still returns success with the units inserted — the
persistence error is not surfaced to the caller and nothing durable was
written, contradicting the claim. -/
theorem addChunks_swallows_write_error :
    addChunks [chunkInA] [] (Except.error "disk full")
      = Except.ok [toMetaEntry chunkInA] := by
  rfl

/-- **C3** (amended): `_save_index` catches any error from the index/metadata
writes and only logs it (index_faiss.py lines 166-167), so `add_chunks`
returns success with the units appended to the in-memory metadata regardless
of the write outcome; no persistence error reaches the caller and add does
not guarantee durability before returning. -/
theorem addChunks_never_surfaces_write_error (chunks : List ChunkIn)
    (metadata : List MetaEntry) (w : Except String Unit) (h : chunks ≠ []) :
    saveIndex w = Except.ok ()
      ∧ addChunks chunks metadata w = Except.ok (metadata ++ chunks.map toMetaEntry) := by
  constructor
  · cases w <;> rfl
  · unfold addChunks
    rw [if_neg h]
    cases w <;> rfl

/-- Witness for `addChunks_never_surfaces_write_error` at a concrete failing
write. -/
theorem addChunks_never_surfaces_write_error_witness :
    ([chunkInA] : List ChunkIn) ≠ []
      ∧ addChunks [chunkInA] [] (Except.error "io error")
          = Except.ok ([] ++ [chunkInA].map toMetaEntry) :=
  ⟨by decide,
    (addChunks_never_surfaces_write_error [chunkInA] [] (Except.error "io error")
      (by decide)).2⟩

/-- The marker-resolution loop, characterized: keep exactly the in-range
markers (in order, duplicates included) and map each to the citation of the
unit it 1-indexes. -/
theorem citeLoop_eq_filter_map (chunks : List RetrievedChunk) (ms : List Nat) :
    citeLoop chunks ms
      = (ms.filter fun n => decide (1 ≤ n) && decide (n - 1 < chunks.length)).map
          (fun n => toCitation (chunks.getD (n - 1) default)) := by
  induction ms with
  | nil => rfl
  | cons n ms ih =>
    simp only [citeLoop, List.filter_cons]
    by_cases h : 1 ≤ n ∧ n - 1 < chunks.length
    · rw [dif_pos h]
      have hb : (decide (1 ≤ n) && decide (n - 1 < chunks.length)) = true := by
        simp [h.1, h.2]
      rw [hb]
      simp only [if_true, List.map_cons]
      rw [ih, List.getD_eq_getElem chunks default h.2]
      rfl
    · rw [dif_neg h]
      have hb : (decide (1 ≤ n) && decide (n - 1 < chunks.length)) = false := by
        rcases Decidable.not_and_iff_or_not.mp h with h1 | h1 <;> simp [h1]
      rw [hb]
      simpa using ih

/-- **C9**: `extract_citations` returns one citation per inline `[n]` marker,
in first-appearance order with duplicates repeated; marker `n` resolves
1-indexed to `retrieved_units[n-1]`; out-of-range markers are silently
skipped.  The last two conjuncts check the spec's scenario: the text
`"Paris is the capital [1]. See also [2] and [9]."` with two retrieved units
yields exactly the citations of units 1 and 2, marker `[9]` skipped. -/
theorem extractCitations_spec (resp : String) (chunks : List RetrievedChunk) :
    extractCitations resp chunks
      = ((findMarkers resp.data).filter
          fun n => decide (1 ≤ n) && decide (n - 1 < chunks.length)).map
          (fun n => toCitation (chunks.getD (n - 1) default))
    ∧ findMarkers "Paris is the capital [1]. See also [2] and [9].".data = [1, 2, 9]
    ∧ ∀ u1 u2 : RetrievedChunk,
        extractCitations "Paris is the capital [1]. See also [2] and [9]." [u1, u2]
          = [toCitation u1, toCitation u2] := by
  refine ⟨citeLoop_eq_filter_map _ _, by decide, ?_⟩
  intro u1 u2
  show citeLoop [u1, u2] (findMarkers _) = _
  have hm : findMarkers "Paris is the capital [1]. See also [2] and [9].".data
      = [1, 2, 9] := by decide
  rw [hm]
  simp +decide [citeLoop]

/-- **C7**: when semantic processing raises, `chunk_text` returns the
fixed-size fallback instead of propagating (first conjunct; `chunkText` being
a total function models that nothing escapes the `except` clause), and the
fallback is a sliding window over the raw token sequence with stride
`chunk_size − overlap`, producing units with no heading context whose text
and token count come from the window `[k·stride, k·stride + chunk_size)`. -/
theorem chunkText_fallback_spec (tok : Tokenizer) (cs co : Nat) (e : String)
    (text docId : String) (hco : co < cs) :
    chunkText tok cs co (some e) text docId = simpleChunk tok cs co text docId
    ∧ (∀ c ∈ simpleChunk tok cs co text docId, c.headings = [])
    ∧ (simpleChunk tok cs co text docId).length
        = ((tok.encode text).length + (cs - co) - 1) / (cs - co)
    ∧ ∀ k, k < (simpleChunk tok cs co text docId).length →
        (simpleChunk tok cs co text docId).getD k default
          = { chunk_id := "simple_chunk_" ++ docId ++ "_" ++ toString (k * (cs - co) / cs)
              text := tok.decode (((tok.encode text).drop (k * (cs - co))).take cs)
              location := ⟨some 1, "text", toString (k * (cs - co) / cs)⟩
              headings := []
              token_count := (((tok.encode text).drop (k * (cs - co))).take cs).length } := by
  refine ⟨rfl, ?_, ?_, ?_⟩
  · intro c hc
    simp only [simpleChunk, List.mem_map] at hc
    obtain ⟨k, _, rfl⟩ := hc
    rfl
  · simp [simpleChunk]
  · intro k hk
    simp only [simpleChunk, List.length_map, List.length_range] at hk
    rw [List.getD_eq_getElem _ _ (by simpa [simpleChunk] using hk)]
    simp [simpleChunk]

/-- Witness for `chunkText_fallback_spec` at a concrete failing run. -/
theorem chunkText_fallback_spec_witness :
    1 < 3
      ∧ chunkText charTok 3 1 (some "boom") "abcde" "d"
          = simpleChunk charTok 3 1 "abcde" "d" :=
  ⟨by decide, (chunkText_fallback_spec charTok 3 1 "boom" "abcde" "d" (by decide)).1⟩

/-- Every hit emitted by the candidate loop has a document id outside `seen`,
and the emitted hits are pairwise distinct by document id. -/
theorem faissLoop_dedup (metadata : List MetaEntry) (filt : List Int) :
    ∀ (raw : List (Rat × Nat)) (budget : Nat) (seen : List (Option Int)),
      (∀ h ∈ faissLoop metadata raw budget seen filt, h.document_id ∉ seen)
      ∧ List.Pairwise (fun a b : SearchHit => a.document_id ≠ b.document_id)
          (faissLoop metadata raw budget seen filt)
  | [], budget, seen => by simp [faissLoop]
  | (score, idx) :: rest, budget, seen => by
    simp only [faissLoop]
    split
    case isFalse =>
      exact faissLoop_dedup metadata filt rest budget seen
    case isTrue hidx =>
      split
      case isTrue =>
        exact faissLoop_dedup metadata filt rest budget seen
      case isFalse =>
        split
        case isTrue =>
          exact faissLoop_dedup metadata filt rest budget seen
        case isFalse hmem =>
          split
          case isTrue =>
            exact ⟨by simpa using hmem, List.pairwise_singleton _ _⟩
          case isFalse =>
            obtain ⟨ihmem, ihpw⟩ :=
              faissLoop_dedup metadata filt rest (budget - 1)
                ((metadata.get ⟨idx, hidx⟩).document_id :: seen)
            constructor
            · intro h hh
              rcases List.mem_cons.mp hh with rfl | hh
              · simpa using hmem
              · exact fun hs => ihmem h hh (List.mem_cons_of_mem _ hs)
            · refine List.pairwise_cons.mpr ⟨?_, ihpw⟩
              intro h hh
              intro heq
              exact ihmem h hh (by rw [← heq]; exact List.mem_cons_self _ _)

/-- The score sequence of the emitted hits is a sublist of the raw score
sequence (hence any ordering of the raw scores carries over). -/
theorem faissLoop_scores_sublist (metadata : List MetaEntry) (filt : List Int) :
    ∀ (raw : List (Rat × Nat)) (budget : Nat) (seen : List (Option Int)),
      ((faissLoop metadata raw budget seen filt).map (fun h => h.score)).Sublist
        (raw.map Prod.fst)
  | [], budget, seen => by simp [faissLoop]
  | (score, idx) :: rest, budget, seen => by
    simp only [faissLoop, List.map_cons]
    split
    case isFalse =>
      exact (faissLoop_scores_sublist metadata filt rest budget seen).cons _
    case isTrue hidx =>
      split
      case isTrue =>
        exact (faissLoop_scores_sublist metadata filt rest budget seen).cons _
      case isFalse =>
        split
        case isTrue =>
          exact (faissLoop_scores_sublist metadata filt rest budget seen).cons _
        case isFalse =>
          split
          case isTrue =>
            simpa using (List.nil_sublist _).cons₂ score
          case isFalse =>
            simpa using
              (faissLoop_scores_sublist metadata filt rest (budget - 1) _).cons₂ score

/-- With a positive budget the loop emits at most `budget` hits. -/
theorem faissLoop_length_le (metadata : List MetaEntry) (filt : List Int) :
    ∀ (raw : List (Rat × Nat)) (budget : Nat) (seen : List (Option Int)),
      1 ≤ budget → (faissLoop metadata raw budget seen filt).length ≤ budget
  | [], budget, seen, _ => by simp [faissLoop]
  | (score, idx) :: rest, budget, seen, hb => by
    simp only [faissLoop]
    split
    case isFalse => exact faissLoop_length_le metadata filt rest budget seen hb
    case isTrue hidx =>
      split
      case isTrue => exact faissLoop_length_le metadata filt rest budget seen hb
      case isFalse =>
        split
        case isTrue => exact faissLoop_length_le metadata filt rest budget seen hb
        case isFalse =>
          split
          case isTrue h1 => simpa using hb
          case isFalse h1 =>
            have := faissLoop_length_le metadata filt rest (budget - 1)
              ((metadata.get ⟨idx, hidx⟩).document_id :: seen) (by omega)
            simp only [List.length_cons]
            omega

/-- The chunk-id based merge of `VectorIndex.search` preserves pairwise
distinctness of chunk ids. -/
theorem mergeFold_pairwise (qhits : List SearchHit) :
    ∀ acc : List SearchHit,
      List.Pairwise (fun a b : SearchHit => a.chunk_id ≠ b.chunk_id) acc →
      List.Pairwise (fun a b : SearchHit => a.chunk_id ≠ b.chunk_id)
        (qhits.foldl
          (fun acc q =>
            if acc.any (fun r => r.chunk_id = q.chunk_id) then acc else acc ++ [q])
          acc) := by
  induction qhits with
  | nil => intro acc h; exact h
  | cons q qs ih =>
    intro acc h
    simp only [List.foldl_cons]
    by_cases hq : acc.any (fun r => r.chunk_id = q.chunk_id)
    · rw [if_pos hq]; exact ih acc h
    · rw [if_neg hq]
      apply ih
      rw [List.pairwise_append]
      refine ⟨h, List.pairwise_singleton _ _, ?_⟩
      intro a ha b hb
      simp only [List.mem_singleton] at hb
      subst hb
      simp only [List.any_eq_true, decide_eq_true_eq, not_exists, not_and] at hq
      exact hq a ha

/-- **C1** (amended): the *local* search result is always deduplicated by
`document_id` (index_faiss.py lines 112-116); the Qdrant merge, however,
deduplicates only by `chunk_id` (index.py line 146), so what the merged,
re-truncated list preserves is pairwise distinctness of chunk ids, not of
document ids. -/
theorem search_dedup_amended :
    (∀ (ntotal : Nat) (rawResult : Except String (List (Rat × Nat)))
        (metadata : List MetaEntry) (topK : Nat) (filt : List Int),
        List.Pairwise (fun a b : SearchHit => a.document_id ≠ b.document_id)
          (faissSearch ntotal rawResult metadata topK filt))
    ∧ ∀ (fr : List SearchHit) (topK : Nat) (useQdrant : Bool)
        (q : Except String (List SearchHit)),
        List.Pairwise (fun a b : SearchHit => a.chunk_id ≠ b.chunk_id) fr →
        List.Pairwise (fun a b : SearchHit => a.chunk_id ≠ b.chunk_id)
          (vectorSearch fr topK useQdrant q) := by
  constructor
  · intro ntotal rawResult metadata topK filt
    unfold faissSearch
    split
    · exact List.Pairwise.nil
    · match rawResult with
      | .error _ => exact List.Pairwise.nil
      | .ok raw => exact (faissLoop_dedup metadata filt raw topK []).2
  · intro fr topK useQdrant q h
    unfold vectorSearch
    split
    · exact h
    · refine List.Pairwise.sublist (List.take_sublist _ _) ?_
      cases useQdrant with
      | false => exact h
      | true =>
        match q with
        | .error _ => exact h
        | .ok qhits => exact mergeFold_pairwise qhits fr h

/-- Witness for `search_dedup_amended`'s merge part at a concrete input. -/
theorem search_dedup_amended_witness :
    List.Pairwise (fun a b : SearchHit => a.chunk_id ≠ b.chunk_id) [qdrantHitC]
      ∧ List.Pairwise (fun a b : SearchHit => a.chunk_id ≠ b.chunk_id)
          (vectorSearch [qdrantHitC] 2 true (Except.ok [qdrantHitB])) :=
  ⟨by decide, search_dedup_amended.2 [qdrantHitC] 2 true (Except.ok [qdrantHitB]) (by decide)⟩

/-- **C1** (counterexample): document 1 has two chunks `u1`, `u2`; the local
search dedups to `u1` alone, falls short of `top_k = 2`, and the Qdrant merge
appends `u2` — same document, different chunk id — so the returned list has
two hits sharing `document_id`, refuting the claim for merged results. -/
theorem search_merge_duplicates_document :
    ¬ List.Pairwise (fun a b : SearchHit => a.document_id ≠ b.document_id)
      (search 2 (Except.ok [((2 : Rat), 0), ((1 : Rat), 1)]) [metaA, metaB] 2 []
        true (Except.ok [qdrantHitB])) := by
  decide

/-- **C4** (amended): every search result has length at most `top_k` (given
the code's own cap `min(2·top_k, ntotal)` on the raw candidate list), and the
*local* result list is non-increasing in score whenever the raw FAISS scores
are (FAISS returns them sorted).  Strictness fails under ties, and merged
remote hits are appended after the local ones, so the global ordering claim
holds only for the local list — see the counterexample. -/
theorem search_length_and_local_ordering (ntotal : Nat) (raw : List (Rat × Nat))
    (metadata : List MetaEntry) (topK : Nat) (filt : List Int) (useQdrant : Bool)
    (q : Except String (List SearchHit))
    (hsorted : List.Pairwise (fun a b : Rat × Nat => b.1 ≤ a.1) raw)
    (hlen : raw.length ≤ 2 * topK) :
    (search ntotal (Except.ok raw) metadata topK filt useQdrant q).length ≤ topK
    ∧ List.Pairwise (fun a b : SearchHit => b.score ≤ a.score)
        (faissSearch ntotal (Except.ok raw) metadata topK filt) := by
  have hfr : (faissSearch ntotal (Except.ok raw) metadata topK filt).length ≤ topK := by
    unfold faissSearch
    split
    · simp
    · match topK, hlen with
      | 0, hlen =>
        have : raw = [] := List.length_eq_zero.mp (by omega)
        subst this
        simp [faissLoop]
      | (k + 1), hlen =>
        exact faissLoop_length_le metadata filt raw (k + 1) [] (by omega)
  constructor
  · unfold search vectorSearch
    split
    · exact hfr
    · exact le_trans (List.length_take_le _ _) (le_refl _)
  · unfold faissSearch
    split
    · exact List.Pairwise.nil
    · have hs : List.Pairwise (fun a b : Rat => b ≤ a) (raw.map Prod.fst) :=
        List.pairwise_map.mpr hsorted
      have hsub := faissLoop_scores_sublist metadata filt raw topK []
      exact List.pairwise_map.mp (hs.sublist hsub)

/-- Witness for `search_length_and_local_ordering` at a concrete sorted raw
candidate list. -/
theorem search_length_and_local_ordering_witness :
    List.Pairwise (fun a b : Rat × Nat => b.1 ≤ a.1) [((2 : Rat), 0), ((1 : Rat), 1)]
      ∧ [((2 : Rat), 0), ((1 : Rat), 1)].length ≤ 2 * 2
      ∧ (search 2 (Except.ok [((2 : Rat), 0), ((1 : Rat), 1)]) [metaA, metaB] 2 []
          false (Except.ok [])).length ≤ 2
      ∧ List.Pairwise (fun a b : SearchHit => b.score ≤ a.score)
          (faissSearch 2 (Except.ok [((2 : Rat), 0), ((1 : Rat), 1)]) [metaA, metaB] 2 []) := by
  have H := search_length_and_local_ordering 2 [((2 : Rat), 0), ((1 : Rat), 1)]
    [metaA, metaB] 2 [] false (Except.ok []) (by decide) (by decide)
  exact ⟨by decide, by decide, H.1, H.2⟩

/-- **C4** (counterexample): the local search returns one hit with score 1;
`top_k = 2` is not reached, and the Qdrant merge appends a remote hit with
score 2 *after* it, so the returned list `[score 1, score 2]` is not
non-increasing (a fortiori not strictly descending), refuting the ordering
claim for merged results. -/
theorem search_merge_breaks_ordering :
    ¬ List.Pairwise (fun a b : SearchHit => b.score ≤ a.score)
      (search 1 (Except.ok [((1 : Rat), 0)]) [metaA] 2 [] true
        (Except.ok [qdrantHitC])) := by
  decide

/-- The overlap loop preserves the number of chunks. -/
theorem applyOverlapGo_length (tok : Tokenizer) (co : Nat) :
    ∀ (rest : List ChunkData) (prev : ChunkData),
      (applyOverlapGo tok co prev rest).length = rest.length
  | [], _ => rfl
  | c :: rest, prev => by
    show (stitchChunk tok co prev c
        :: applyOverlapGo tok co (stitchChunk tok co prev c) rest).length = _
    simp [applyOverlapGo_length tok co rest]

/-- Position-wise description of the overlap loop: each output chunk is the
input chunk at that position stitched against the *output* (already mutated)
predecessor — `prev` for position 0. -/
theorem applyOverlapGo_getD (tok : Tokenizer) (co : Nat) :
    ∀ (rest : List ChunkData) (prev : ChunkData) (i : Nat), i < rest.length →
      (applyOverlapGo tok co prev rest).getD i default
        = stitchChunk tok co
            (if i = 0 then prev
             else (applyOverlapGo tok co prev rest).getD (i - 1) default)
            (rest.getD i default)
  | [], _, i, h => absurd h (by simp)
  | c :: rest, prev, 0, _ => by
    show (stitchChunk tok co prev c
        :: applyOverlapGo tok co (stitchChunk tok co prev c) rest).getD 0 default = _
    simp
  | c :: rest, prev, (i + 1), h => by
    have hred : applyOverlapGo tok co prev (c :: rest)
        = stitchChunk tok co prev c
          :: applyOverlapGo tok co (stitchChunk tok co prev c) rest := rfl
    have ih := applyOverlapGo_getD tok co rest (stitchChunk tok co prev c) i
      (by simpa using h)
    rw [hred, List.getD_cons_succ, ih]
    cases i with
    | zero => simp
    | succ j => simp

/-- **C6** (amended): overlap stitching, as the code actually performs it —
for every run with two or more units, the first unit is unchanged, the count
is preserved, and every later unit equals the corresponding pre-overlap unit
stitched (`stitchChunk`: `_get_overlap_text` of the predecessor's text,
joined with a blank line when non-empty, `token_count` recomputed) against
the *already-stitched* predecessor, because `_apply_overlap` mutates the list
in place and reads `chunks[i-1]` after mutating it.  The prepended portion is
therefore computed from the previous unit's post-stitch text, and the
sentence-boundary trim rewrites separators to `'. '`, so it need not be a
literal suffix of the previous unit's un-overlapped text. -/
theorem applyOverlap_characterization (tok : Tokenizer) (co : Nat)
    (chunks : List ChunkData) :
    (applyOverlap tok co chunks).length = chunks.length
    ∧ (applyOverlap tok co chunks).getD 0 default = chunks.getD 0 default
    ∧ ∀ i, i + 1 < chunks.length →
        (applyOverlap tok co chunks).getD (i + 1) default
          = stitchChunk tok co ((applyOverlap tok co chunks).getD i default)
              (chunks.getD (i + 1) default) := by
  match chunks with
  | [] => exact ⟨rfl, rfl, fun i h => absurd h (by simp)⟩
  | [c] => exact ⟨rfl, rfl, fun i h => absurd h (by simp)⟩
  | c :: c' :: t =>
    have hshow : applyOverlap tok co (c :: c' :: t)
        = c :: applyOverlapGo tok co c (c' :: t) := rfl
    refine ⟨?_, by rw [hshow]; simp, ?_⟩
    · rw [hshow]
      simp [applyOverlapGo_length tok co (c' :: t)]
    · intro i h
      rw [hshow, List.getD_cons_succ]
      rw [applyOverlapGo_getD tok co (c' :: t) c i (by simpa using h)]
      congr 1
      cases i with
      | zero => simp
      | succ j => simp

/-- Witness for `applyOverlap_characterization` at a concrete two-chunk run. -/
theorem applyOverlap_characterization_witness :
    0 + 1 < ([chunkA, chunkB] : List ChunkData).length
      ∧ (applyOverlap charTok 3 [chunkA, chunkB]).getD 1 default
          = stitchChunk charTok 3 ((applyOverlap charTok 3 [chunkA, chunkB]).getD 0 default)
              ([chunkA, chunkB].getD 1 default) :=
  ⟨by decide, (applyOverlap_characterization charTok 3 [chunkA, chunkB]).2.2 0 (by decide)⟩

/-- **C6** (counterexample): chunking `"abcdeHi!\n\nxyz"` with
`chunk_size = 8`, `overlap = 4` (character tokens) produces the pre-overlap
units `"abcdeHi!"` and `"xyz"`; the second unit is stitched to
`"eHi.\n\nxyz"` — the sentence-boundary trim rewrote the trailing slice
`"eHi!"` to `"eHi."`, which is *not* a suffix of the previous unit's
un-overlapped text `"abcdeHi!"`.  So no suffix of the previous un-overlapped
text can account for the prepended portion, refuting the claim. -/
theorem overlap_not_suffix_of_unoverlapped :
    ¬ ∃ s : String,
        s.data <:+ ((preOverlapChunks charTok 8 "abcdeHi!\n\nxyz" "d" none "text").getD 0
            default).text.data
        ∧ ((applyOverlap charTok 4
              (preOverlapChunks charTok 8 "abcdeHi!\n\nxyz" "d" none "text")).getD 1
              default).text
            = s ++ "\n\n"
              ++ ((preOverlapChunks charTok 8 "abcdeHi!\n\nxyz" "d" none "text").getD 1
                  default).text := by
  rintro ⟨s, hsuf, heq⟩
  have h0 : ((preOverlapChunks charTok 8 "abcdeHi!\n\nxyz" "d" none "text").getD 0
      default).text = "abcdeHi!" := by decide
  have h1 : ((preOverlapChunks charTok 8 "abcdeHi!\n\nxyz" "d" none "text").getD 1
      default).text = "xyz" := by decide
  have hout : ((applyOverlap charTok 4
      (preOverlapChunks charTok 8 "abcdeHi!\n\nxyz" "d" none "text")).getD 1
      default).text = "eHi.\n\nxyz" := by decide
  rw [hout, h1] at heq
  rw [h0] at hsuf
  have hdata := congrArg String.data heq
  simp only [String.data_append] at hdata
  have h2 := hdata.symm.trans
    (show "eHi.\n\nxyz".data = ("eHi.".data ++ "\n\n".data) ++ "xyz".data by decide)
  have hs : s.data = "eHi.".data :=
    List.append_cancel_right (List.append_cancel_right h2)
  rw [hs] at hsuf
  exact absurd hsuf (by decide)

/-- Under the character tokenizer, a text's token count is its length. -/
theorem charTok_encode_length (s : String) : (charTok.encode s).length = s.length := by
  show (s.data.map Char.toNat).length = s.data.length
  exact List.length_map _ _

/-- Decoding under the character tokenizer preserves length. -/
theorem charTok_decode_length (l : List Nat) : (charTok.decode l).length = l.length := by
  show (l.map Char.ofNat).length = l.length
  exact List.length_map _ _

/-- Stripping never lengthens a string. -/
theorem pyStrip_length_le (s : String) : (pyStrip s).length ≤ s.length := by
  show (((s.data.dropWhile isPyWS).reverse.dropWhile isPyWS).reverse).length ≤ s.data.length
  calc (((s.data.dropWhile isPyWS).reverse.dropWhile isPyWS).reverse).length
      = ((s.data.dropWhile isPyWS).reverse.dropWhile isPyWS).length :=
        List.length_reverse _
    _ ≤ (s.data.dropWhile isPyWS).reverse.length := (List.dropWhile_sublist _).length_le
    _ = (s.data.dropWhile isPyWS).length := List.length_reverse _
    _ ≤ s.data.length := (List.dropWhile_sublist _).length_le

/-- The sentence splitter always produces at least one part. -/
theorem splitPunctGo_ne_nil :
    ∀ (l cur : List Char) (b : Bool), splitPunctGo l cur b ≠ []
  | [], cur, b => by simp [splitPunctGo]
  | c :: rest, cur, b => by
    simp only [splitPunctGo]
    split_ifs
    · exact splitPunctGo_ne_nil rest [] true
    · simp
    · exact splitPunctGo_ne_nil rest (c :: cur) false

/-- Size accounting for the sentence splitter: total part length plus part
count is bounded by input length plus accumulator length plus one (each
internal separator run consumes at least one input character). -/
theorem splitPunctGo_sum_le :
    ∀ (l cur : List Char) (b : Bool),
      ((splitPunctGo l cur b).map List.length).sum + (splitPunctGo l cur b).length
        ≤ l.length + cur.length + 1
  | [], cur, b => by simp [splitPunctGo]
  | c :: rest, cur, b => by
    simp only [splitPunctGo]
    split_ifs
    · have := splitPunctGo_sum_le rest [] true
      simp only [List.length_nil] at this
      simp only [List.length_cons]
      omega
    · have := splitPunctGo_sum_le rest [] true
      simp only [List.length_nil] at this
      simp only [List.map_cons, List.sum_cons, List.length_cons, List.length_reverse]
      omega
    · have := splitPunctGo_sum_le rest (c :: cur) false
      simp only [List.length_cons] at this ⊢
      omega

/-- Length of the `'. '`-join of a non-empty part list. -/
theorem joinDotSp_length :
    ∀ ps : List String, ps ≠ [] →
      (joinDotSp ps).length = (ps.map String.length).sum + 2 * (ps.length - 1)
  | [], h => absurd rfl h
  | [s], _ => by simp [joinDotSp]
  | s :: s2 :: rest, _ => by
    have ih := joinDotSp_length (s2 :: rest) (by simp)
    show (s ++ ". " ++ joinDotSp (s2 :: rest)).length = _
    rw [String.length_append, String.length_append, ih]
    have h2 : (". " : String).length = 2 := rfl
    have hsum : (List.map String.length (s :: s2 :: rest)).sum
        = s.length + (List.map String.length (s2 :: rest)).sum := by simp
    have hl1 : (s :: s2 :: rest).length = (s2 :: rest).length + 1 := by simp
    have hl2 : 1 ≤ (s2 :: rest).length := by simp
    rw [h2, hsum, hl1]
    omega

/-- The overlap text computed by `_get_overlap_text` under the character
tokenizer never exceeds twice the overlap budget: the raw slice has exactly
`co` characters, and the sentence-boundary rewrite can at most double it
(every separator run of length ≥ 1 becomes the two characters `'. '`). -/
theorem getOverlapText_length_le (t : String) (co : Nat) (hco : 0 < co) :
    (getOverlapText charTok t co).length ≤ 2 * co := by
  simp only [getOverlapText]
  split_ifs with hfit hs
  · have := charTok_encode_length t
    omega
  · -- sentence-rewrite case
    have hotlen :
        (charTok.decode (pyLastSlice (charTok.encode t) co)).length = co := by
      rw [charTok_decode_length]
      simp only [pyLastSlice]
      rw [if_neg (by omega)]
      rw [List.length_drop]
      have := charTok_encode_length t
      omega
    set ot := charTok.decode (pyLastSlice (charTok.encode t) co) with hot
    have hotdata : ot.data.length = co := hotlen
    set parts := splitPunctGo ot.data [] false with hparts
    have hsum := splitPunctGo_sum_le ot.data [] false
    simp only [← hparts, List.length_nil] at hsum
    have hlen_parts : (reSplitPunct ot).length = parts.length := by
      simp [reSplitPunct, ← hparts]
    have hn : 2 ≤ parts.length := by rw [hlen_parts] at hs; omega
    have hdl_ne : (reSplitPunct ot).dropLast ≠ [] := by
      have : 1 ≤ (reSplitPunct ot).dropLast.length := by
        rw [List.length_dropLast, hlen_parts]; omega
      intro hnil
      rw [hnil] at this
      simp at this
    rw [String.length_append, joinDotSp_length _ hdl_ne]
    have hmapdl : (reSplitPunct ot).dropLast = parts.dropLast.map (⟨·⟩) := by
      simp only [reSplitPunct, ← hparts]
      exact (List.map_dropLast _ _).symm
    have hS1 : ((reSplitPunct ot).dropLast.map String.length).sum
        = (parts.dropLast.map List.length).sum := by
      rw [hmapdl, List.map_map]
      rfl
    have hS2 : (parts.dropLast.map List.length).sum ≤ (parts.map List.length).sum :=
      List.Sublist.sum_le_sum ((List.dropLast_sublist parts).map List.length) (by simp)
    have hL : (reSplitPunct ot).dropLast.length = parts.length - 1 := by
      rw [List.length_dropLast, hlen_parts]
    rw [hS1, hL]
    have hdot : ("." : String).length = 1 := rfl
    rw [hdot]
    have hotco := hotdata
    omega
  · -- raw-slice case
    have : (charTok.decode (pyLastSlice (charTok.encode t) co)).length = co := by
      rw [charTok_decode_length]
      simp only [pyLastSlice]
      rw [if_neg (by omega)]
      rw [List.length_drop]
      have := charTok_encode_length t
      omega
    omega

/-- Stitching adds at most the overlap text (≤ 2·overlap characters) plus the
two-character blank-line joiner to a chunk whose recorded token count equals
its text length. -/
theorem stitchChunk_bound (co : Nat) (hco : 0 < co) (prev c : ChunkData)
    (hc : c.token_count = c.text.length) :
    (stitchChunk charTok co prev c).token_count ≤ c.token_count + (2 * co + 2) := by
  simp only [stitchChunk]
  split_ifs with h
  · omega
  · have hlen : (charTok.encode (getOverlapText charTok prev.text co ++ "\n\n" ++ c.text)).length
        = (getOverlapText charTok prev.text co).length + 2 + c.text.length := by
      rw [charTok_encode_length, String.length_append, String.length_append]
      rfl
    have hot := getOverlapText_length_le prev.text co hco
    show (charTok.encode (getOverlapText charTok prev.text co ++ "\n\n" ++ c.text)).length
        ≤ c.token_count + (2 * co + 2)
    omega

/-- Position-wise token growth bound for the overlap loop. -/
theorem applyOverlapGo_token_bound (co : Nat) (hco : 0 < co) :
    ∀ (rest : List ChunkData) (prev : ChunkData),
      (∀ c ∈ rest, c.token_count = c.text.length) →
      List.Forall₂ (fun cin cout : ChunkData =>
          cout.token_count ≤ cin.token_count + (2 * co + 2))
        rest (applyOverlapGo charTok co prev rest)
  | [], _, _ => List.Forall₂.nil
  | c :: rest, prev, h => by
    have hred : applyOverlapGo charTok co prev (c :: rest)
        = stitchChunk charTok co prev c
          :: applyOverlapGo charTok co (stitchChunk charTok co prev c) rest := rfl
    rw [hred]
    exact List.Forall₂.cons
      (stitchChunk_bound co hco prev c (h c (List.mem_cons_self _ _)))
      (applyOverlapGo_token_bound co hco rest _
        (fun x hx => h x (List.mem_cons_of_mem _ hx)))

/-- Token growth bound for `_apply_overlap` as a whole. -/
theorem applyOverlap_token_bound (co : Nat) (hco : 0 < co) (chunks : List ChunkData)
    (h : ∀ c ∈ chunks, c.token_count = c.text.length) :
    List.Forall₂ (fun cin cout : ChunkData =>
        cout.token_count ≤ cin.token_count + (2 * co + 2))
      chunks (applyOverlap charTok co chunks) := by
  match chunks with
  | [] => exact List.Forall₂.nil
  | [c] => exact List.Forall₂.cons (Nat.le_add_right _ _) List.Forall₂.nil
  | c :: c2 :: t =>
    show List.Forall₂ _ (c :: c2 :: t) (c :: applyOverlapGo charTok co c (c2 :: t))
    exact List.Forall₂.cons (Nat.le_add_right _ _)
      (applyOverlapGo_token_bound co hco (c2 :: t) c
        (fun x hx => h x (List.mem_cons_of_mem _ hx)))

/-- Every pre-overlap chunk records its exact text length as `token_count`
(chunking.py line 174, under the character tokenizer). -/
theorem preOverlapChunks_token_count (cs : Nat) (text docId : String)
    (pn : Option Nat) (pt : String) :
    ∀ c ∈ preOverlapChunks charTok cs text docId pn pt,
      c.token_count = c.text.length := by
  intro c hc
  simp only [preOverlapChunks, List.mem_flatten, List.mem_map] at hc
  obtain ⟨L, ⟨⟨i, s⟩, _, rfl⟩, hcL⟩ := hc
  simp only [sectionChunks] at hcL
  split_ifs at hcL with h1 h2
  · simp at hcL
  · simp only [List.mem_map] at hcL
    obtain ⟨⟨j, sub⟩, _, rfl⟩ := hcL
    exact charTok_encode_length sub
  · simp only [List.mem_singleton] at hcL
    subst hcL
    exact charTok_encode_length s.text

/-- Budget invariant of the paragraph-accumulation loop: every emitted
sub-chunk either fits the budget or is the stripped form of one whole
paragraph from `P` (the never-drop policy for oversized paragraphs). -/
theorem splitLargeGo_invariant (cs : Nat) (P : List String) :
    ∀ (ps : List String) (cur : String),
      (∀ p ∈ ps, p ∈ P) →
      (cur = "" ∨ (charTok.encode cur).length ≤ cs ∨ cur ∈ P) →
      ∀ sub ∈ splitLargeGo charTok cs ps cur,
        (charTok.encode sub).length ≤ cs ∨ ∃ p ∈ P, sub = pyStrip p
  | [], cur, _, hcur => by
    intro sub hsub
    simp only [splitLargeGo] at hsub
    split_ifs at hsub with h
    · simp only [List.mem_singleton] at hsub
      subst hsub
      rcases hcur with rfl | hle | hP
      · exact absurd rfl h
      · left
        rw [charTok_encode_length]
        calc (pyStrip cur).length ≤ cur.length := pyStrip_length_le cur
          _ = (charTok.encode cur).length := (charTok_encode_length cur).symm
          _ ≤ cs := hle
      · right; exact ⟨cur, hP, rfl⟩
    · simp at hsub
  | p :: ps, cur, hps, hcur => by
    intro sub hsub
    simp only [splitLargeGo] at hsub
    by_cases h1 : pyStrip p = ""
    · rw [if_pos h1] at hsub
      exact splitLargeGo_invariant cs P ps cur
        (fun q hq => hps q (List.mem_cons_of_mem _ hq)) hcur sub hsub
    · rw [if_neg h1] at hsub
      by_cases hc : cur = ""
      · subst hc
        have e1 : (if ("" : String) ≠ "" then ("" : String) ++ "\n\n" ++ p else p) = p := by
          simp
        rw [e1, if_neg (by simp)] at hsub
        exact splitLargeGo_invariant cs P ps p
          (fun q hq => hps q (List.mem_cons_of_mem _ hq))
          (Or.inr (Or.inr (hps p (List.mem_cons_self _ _)))) sub hsub
      · have e1 : (if cur ≠ "" then cur ++ "\n\n" ++ p else p) = cur ++ "\n\n" ++ p :=
          if_pos hc
        rw [e1] at hsub
        by_cases hbig : cs < (charTok.encode (cur ++ "\n\n" ++ p)).length
        · rw [if_pos ⟨hbig, hc⟩] at hsub
          rcases List.mem_cons.mp hsub with rfl | hsub2
          · rcases hcur with rfl | hle | hP
            · exact absurd rfl hc
            · left
              rw [charTok_encode_length]
              calc (pyStrip cur).length ≤ cur.length := pyStrip_length_le cur
                _ = (charTok.encode cur).length := (charTok_encode_length cur).symm
                _ ≤ cs := hle
            · right; exact ⟨cur, hP, rfl⟩
          · exact splitLargeGo_invariant cs P ps p
              (fun q hq => hps q (List.mem_cons_of_mem _ hq))
              (Or.inr (Or.inr (hps p (List.mem_cons_self _ _)))) sub hsub2
        · rw [if_neg (fun hand => hbig hand.1)] at hsub
          exact splitLargeGo_invariant cs P ps (cur ++ "\n\n" ++ p)
            (fun q hq => hps q (List.mem_cons_of_mem _ hq))
            (Or.inr (Or.inl (by omega))) sub hsub

/-- **C5** (amended): before overlap stitching every emitted unit either
respects `token_count ≤ chunk_size` or is a single whole (stripped) paragraph
of its section emitted unlimited — the code's never-drop policy, which the
original claim's unconditional bound misses; after overlap stitching each
unit's `token_count` exceeds its own pre-overlap value by at most
`2·overlap + 2` (the trailing slice of up to `overlap` tokens, at most
doubled by the sentence-boundary rewrite, plus the two-token blank-line
joiner) — not by `overlap` alone as claimed.  Stated for the character
tokenizer. -/
theorem token_budget_amended (cs co : Nat) (text docId : String)
    (pn : Option Nat) (pt : String) (hco : 0 < co) :
    (∀ c ∈ preOverlapChunks charTok cs text docId pn pt,
        c.token_count ≤ cs
          ∨ ∃ sec ∈ splitByHeadings text, ∃ p ∈ pySplitNLNL sec.text, c.text = pyStrip p)
    ∧ List.Forall₂ (fun cin cout : ChunkData =>
          cout.token_count ≤ cin.token_count + (2 * co + 2))
        (preOverlapChunks charTok cs text docId pn pt)
        (applyOverlap charTok co (preOverlapChunks charTok cs text docId pn pt)) := by
  constructor
  · intro c hc
    simp only [preOverlapChunks, List.mem_flatten, List.mem_map] at hc
    obtain ⟨L, ⟨⟨i, s⟩, hmem, rfl⟩, hcL⟩ := hc
    have hsec : s ∈ splitByHeadings text := by
      rw [List.mem_enum_iff_getElem?] at hmem
      exact List.getElem?_mem hmem
    simp only [sectionChunks] at hcL
    split_ifs at hcL with h1 h2
    · simp at hcL
    · simp only [List.mem_map] at hcL
      obtain ⟨⟨j, sub⟩, hjm, rfl⟩ := hcL
      have hsub : sub ∈ splitLargeSection charTok cs s.text := by
        rw [List.mem_enum_iff_getElem?] at hjm
        exact List.getElem?_mem hjm
      have hinv := splitLargeGo_invariant cs (pySplitNLNL s.text) (pySplitNLNL s.text) ""
        (fun q hq => hq) (Or.inl rfl) sub (by simpa [splitLargeSection] using hsub)
      rcases hinv with hle | ⟨p, hp, rfl⟩
      · left
        show (charTok.encode sub).length ≤ cs
        exact hle
      · right
        exact ⟨s, hsec, p, hp, rfl⟩
    · left
      simp only [List.mem_singleton] at hcL
      subst hcL
      show (charTok.encode s.text).length ≤ cs
      omega
  · exact applyOverlap_token_bound co hco _
      (preOverlapChunks_token_count cs text docId pn pt)

/-- Witness for `token_budget_amended` at a concrete run. -/
theorem token_budget_amended_witness :
    0 < 1
      ∧ ((∀ c ∈ preOverlapChunks charTok 3 "aaaaa" "d" none "text",
            c.token_count ≤ 3
              ∨ ∃ sec ∈ splitByHeadings "aaaaa", ∃ p ∈ pySplitNLNL sec.text,
                  c.text = pyStrip p)
          ∧ List.Forall₂ (fun cin cout : ChunkData =>
                cout.token_count ≤ cin.token_count + (2 * 1 + 2))
              (preOverlapChunks charTok 3 "aaaaa" "d" none "text")
              (applyOverlap charTok 1 (preOverlapChunks charTok 3 "aaaaa" "d" none "text"))) :=
  ⟨Nat.one_pos, token_budget_amended 3 1 "aaaaa" "d" none "text" Nat.one_pos⟩

/-- **C5** (counterexample): chunking the single over-budget paragraph
`"aaaaa"` with `chunk_size = 3` (character tokens) emits a pre-overlap unit
with `token_count = 5 > 3`, and — with `overlap = 1` — the final unit still
has `token_count = 5 > 3 + 1`, refuting both the pre-overlap bound and the
"at most the overlap budget" allowance. -/
theorem oversized_paragraph_budget_violation :
    ¬ (∀ c ∈ preOverlapChunks charTok 3 "aaaaa" "d" none "text", c.token_count ≤ 3)
      ∧ ¬ (∀ c ∈ chunkBySemanticBoundaries charTok 3 1 "aaaaa" "d" none "text",
            c.token_count ≤ 3 + 1) := by
  constructor <;> decide

end ChatVault
